import Mathlib

/-!
Verification development for the round-based tool-calling loop of the
repository (src/services/llm/claude-provider.ts).  The development embeds,
as executable Lean definitions, the JSON value model, the JSON.parse and
JSON.stringify host functions used by the code, the canonical message
model, the two synthetic tools (write_context, return_output), the
per-round stream handler of ActionImpl.executeSingleRound, the history
trimming pass handleHistoryImageMessages, the action loop of
ActionImpl.execute, and the vendor-event normalization of
ClaudeProvider.generateStream.  Theorems about the claims of the
specification follow the definitions.
-/

/-- JSON values.  JavaScript numbers are modelled as integers: every number
literal the development manipulates is integral, and no claim depends on
fractional values. -/
inductive Json where
  | null
  | bool (b : Bool)
  | num (n : Int)
  | str (s : String)
  | arr (xs : List Json)
  | obj (fields : List (String × Json))

/-- Field lookup on a JSON object, modelling JavaScript property access;
access on a non-object or a missing property yields none (undefined). -/
def Json.getField (j : Json) (k : String) : Option Json :=
  match j with
  | .obj fs => (fs.find? (fun p => p.1 = k)).map (fun p => p.2)
  | _ => none

/-- Opening brace character, kept out of string literals. -/
def lbraceChar : Char := Char.ofNat 123

/-- Closing brace character, kept out of string literals. -/
def rbraceChar : Char := Char.ofNat 125

/-- Whitespace characters recognized by the JSON grammar and by the
JavaScript String.trim model. -/
def isWsChar (c : Char) : Bool :=
  c = ' ' || c = '\n' || c = '\t' || c = '\r'

/-- Truthiness of content.trim() in JavaScript: a string is blank when all
of its characters are whitespace, so trim() yields the empty (falsy)
string exactly on blank strings. -/
def strBlank (s : String) : Bool :=
  s.data.all isWsChar

/-- Drops leading JSON whitespace from a character list. -/
def skipWs : List Char → List Char
  | [] => []
  | c :: cs => if isWsChar c then skipWs cs else c :: cs

/-- Consumes a run of decimal digits, folding them onto an accumulator. -/
def takeDigits (acc : Nat) : List Char → Nat × List Char
  | [] => (acc, [])
  | c :: cs => if c.isDigit then takeDigits (acc * 10 + (c.toNat - 48)) cs else (acc, c :: cs)

/-- Parses a JSON integer literal (optional minus sign, no leading zeros,
no fractional or exponent part in this model). -/
def parseIntLit (cs : List Char) : Option (Int × List Char) :=
  let p : Bool × List Char :=
    match cs with
    | '-' :: rest => (true, rest)
    | _ => (false, cs)
  match p.2 with
  | [] => none
  | c :: rest =>
    if c = '0' then
      match rest with
      | d :: _ => if d.isDigit then none else some (0, rest)
      | [] => some (0, [])
    else if c.isDigit then
      let r := takeDigits (c.toNat - 48) rest
      some ((if p.1 then -(r.1 : Int) else (r.1 : Int)), r.2)
    else none

/-- Parses the body of a JSON string literal after the opening quote, up to
and including the closing quote, handling the common escape sequences. -/
def parseStrChars : List Char → Option (List Char × List Char)
  | [] => none
  | '"' :: rest => some ([], rest)
  | '\\' :: rest =>
    match rest with
    | [] => none
    | e :: rest2 =>
      let c? : Option Char :=
        if e = '"' then some '"'
        else if e = '\\' then some '\\'
        else if e = '/' then some '/'
        else if e = 'n' then some '\n'
        else if e = 't' then some '\t'
        else if e = 'r' then some '\r'
        else none
      match c? with
      | some c =>
        match parseStrChars rest2 with
        | some (s, r) => some (c :: s, r)
        | none => none
      | none => none
  | c :: rest =>
    match parseStrChars rest with
    | some (s, r) => some (c :: s, r)
    | none => none

mutual

/-- Fueled recursive-descent parser for one JSON value. -/
def parseVal : Nat → List Char → Option (Json × List Char)
  | 0, _ => none
  | fuel+1, cs =>
    match skipWs cs with
    | [] => none
    | c :: rest =>
      if c = lbraceChar then
        match skipWs rest with
        | [] => none
        | c2 :: rest2 =>
          if c2 = rbraceChar then some (.obj [], rest2)
          else parseObjItems fuel (c2 :: rest2)
      else if c = '[' then
        match skipWs rest with
        | ']' :: rest2 => some (.arr [], rest2)
        | rest2 => parseArrItems fuel rest2
      else if c = '"' then
        match parseStrChars rest with
        | some (s, r) => some (.str (String.mk s), r)
        | none => none
      else if c = 'n' then
        match rest with
        | 'u' :: 'l' :: 'l' :: r => some (.null, r)
        | _ => none
      else if c = 't' then
        match rest with
        | 'r' :: 'u' :: 'e' :: r => some (.bool true, r)
        | _ => none
      else if c = 'f' then
        match rest with
        | 'a' :: 'l' :: 's' :: 'e' :: r => some (.bool false, r)
        | _ => none
      else
        match parseIntLit (c :: rest) with
        | some (n, r) => some (.num n, r)
        | none => none

/-- Parses the comma-separated items of a non-empty JSON array, including
the closing bracket; the result is the item list in order. -/
def parseArrItems : Nat → List Char → Option (Json × List Char)
  | 0, _ => none
  | fuel+1, cs =>
    match parseVal fuel cs with
    | some (v, r) =>
      match skipWs r with
      | ',' :: r2 =>
        match parseArrItems fuel r2 with
        | some (j, r3) =>
          match j with
          | .arr l => some (.arr (v :: l), r3)
          | _ => none
        | none => none
      | ']' :: r2 => some (.arr [v], r2)
      | _ => none
    | none => none

/-- Parses the comma-separated members of a non-empty JSON object,
including the closing brace; the result is the field list in order. -/
def parseObjItems : Nat → List Char → Option (Json × List Char)
  | 0, _ => none
  | fuel+1, cs =>
    match skipWs cs with
    | '"' :: rest =>
      match parseStrChars rest with
      | some (k, r) =>
        match skipWs r with
        | ':' :: r2 =>
          match parseVal fuel r2 with
          | some (v, r3) =>
            match skipWs r3 with
            | ',' :: r4 =>
              match parseObjItems fuel r4 with
              | some (j, r5) =>
                match j with
                | .obj fs => some (.obj ((String.mk k, v) :: fs), r5)
                | _ => none
              | none => none
            | c :: r4 =>
              if c = rbraceChar then some (.obj [(String.mk k, v)], r4)
              else none
            | [] => none
          | none => none
        | _ => none
      | none => none
    | _ => none

end

/-- Model of JSON.parse: parses the whole string as one JSON value,
allowing surrounding whitespace; none models a thrown SyntaxError. -/
def jsonParse (s : String) : Option Json :=
  match parseVal (s.length + 2) s.data with
  | some (v, r) => if (skipWs r).isEmpty then some v else none
  | none => none

/-- Escapes the characters of a string for JSON output. -/
def escapeChars : List Char → List Char
  | [] => []
  | c :: cs =>
    if c = '"' then '\\' :: '"' :: escapeChars cs
    else if c = '\\' then '\\' :: '\\' :: escapeChars cs
    else if c = '\n' then '\\' :: 'n' :: escapeChars cs
    else if c = '\t' then '\\' :: 't' :: escapeChars cs
    else if c = '\r' then '\\' :: 'r' :: escapeChars cs
    else c :: escapeChars cs

/-- Escapes a string for JSON output. -/
def escapeJson (s : String) : String :=
  String.mk (escapeChars s.data)

mutual

/-- Model of JSON.stringify on JSON values (compact form, no indentation;
the source pretty-prints some logging output, which no claim inspects). -/
def jsonStringify : Json → String
  | .null => "null"
  | .bool b => if b then "true" else "false"
  | .num n => toString n
  | .str s => "\"" ++ escapeJson s ++ "\""
  | .arr xs => "[" ++ stringifyItems xs ++ "]"
  | .obj fs => String.mk [lbraceChar] ++ stringifyFields fs ++ String.mk [rbraceChar]

/-- Stringifies array items, comma separated. -/
def stringifyItems : List Json → String
  | [] => ""
  | [x] => jsonStringify x
  | x :: xs => jsonStringify x ++ "," ++ stringifyItems xs

/-- Stringifies object members, comma separated. -/
def stringifyFields : List (String × Json) → String
  | [] => ""
  | [(k, v)] => "\"" ++ escapeJson k ++ "\":" ++ jsonStringify v
  | (k, v) :: fs => "\"" ++ escapeJson k ++ "\":" ++ jsonStringify v ++ "," ++ stringifyFields fs

end

example : jsonParse "42" = some (.num 42) := rfl
example : jsonParse "not-json" = none := rfl
example : jsonParse (String.mk [lbraceChar, rbraceChar]) = some (.obj []) := rfl
example : jsonParse "\x7b\"a\": [1, true]\x7d" = some (.obj [("a", .arr [.num 1, .bool true])]) := rfl
example : jsonStringify (.obj [("a", .num 1)]) = "\x7b\"a\":1\x7d" := rfl

/-! ## Canonical message model -/

/-- Message roles of the canonical message model. -/
inductive Role where
  | system
  | user
  | assistant
deriving DecidableEq

/-- Sub-blocks inside the content array of a tool_result block: text or
image items, mirroring the shapes the round executor produces. -/
inductive SubBlock where
  | text (text : String)
  | image (source : Json)

/-- Returns true on an image sub-block. -/
def SubBlock.isImage : SubBlock → Bool
  | .image _ => true
  | .text _ => false

/-- Content of a tool_result block: either a plain string (the skip path
writes the literal string) or an array of sub-blocks. -/
inductive ToolResultContent where
  | str (s : String)
  | blocks (items : List SubBlock)

/-- Typed content blocks of a message. -/
inductive ContentBlock where
  | text (text : String)
  | toolUse (id : String) (name : String) (input : Json)
  | toolResult (toolUseId : String) (content : ToolResultContent) (isError : Bool)
  | image (source : Json)

/-- Message content: a raw string or an ordered block sequence. -/
inductive MessageContent where
  | str (s : String)
  | blocks (l : List ContentBlock)

/-- Role-tagged message. -/
structure Message where
  role : Role
  content : MessageContent

/-! ## Execution context, variables and tools -/

/-- Variable store of the execution context, modelling a JavaScript Map
from strings to JSON values (keys unique, insertion order kept). -/
def VarMap := List (String × Json)

/-- Map.get: the value under a key, if present. -/
def varGet (m : VarMap) (k : String) : Option Json :=
  match m with
  | [] => none
  | (k2, v) :: rest => if k2 = k then some v else varGet rest k

/-- Map.set: replaces the value under an existing key in place, otherwise
appends the new entry. -/
def varSet (m : VarMap) (k : String) (v : Json) : VarMap :=
  match m with
  | [] => [(k, v)]
  | (k2, v2) :: rest => if k2 = k then (k2, v) :: rest else (k2, v2) :: varSet rest k v

/-- Map.delete: removes the entry under a key. -/
def varDelete (m : VarMap) (k : String) : VarMap :=
  match m with
  | [] => []
  | (k2, v2) :: rest => if k2 = k then varDelete rest k else (k2, v2) :: varDelete rest k

/-- Mutable part of the ExecutionContext threaded through tool execution:
the variable store and the cooperative control flags __skip and __abort.
The static parts of the source ExecutionContext (context.tools and
context.callback.hooks) are passed separately to break the circular
reference between tools and the context type. -/
structure Ctx where
  vars : VarMap
  skip : Bool
  abort : Bool

/-- Result value of a tool execution: image is the result.image field when
it is present with a truthy type, text is the result.text field, and raw
is the whole returned value as a JSON value (used by JSON.stringify). -/
structure ToolResult where
  image : Option Json
  text : Option String
  raw : Json

/-- Executable capability: name, description, input schema and execute
function.  A throw inside execute is modelled as Except.error carrying the
context state at the throw together with the error message. -/
structure Tool where
  name : String
  description : String
  input_schema : Json
  execute : Ctx → Json → Except (Ctx × String) (Ctx × ToolResult)

/-- Model-issued tool call. -/
structure ToolCall where
  id : String
  name : String
  input : Json

/-- Canonical response shape of a settled model call. -/
structure LLMResponse where
  textContent : Option String
  toolCalls : List ToolCall
  stop_reason : Option String

/-- Lifecycle hooks of context.callback.hooks.  The hook receives the tool
name in place of the tool object (again breaking the circular reference);
it may rewrite the input or result and may mutate the context, and a throw
is modelled as Except.error. -/
structure Hooks where
  beforeToolUse : Option (String → Ctx → Json → Except (Ctx × String) (Ctx × Option Json))
  afterToolUse : Option (String → Ctx → ToolResult → Except (Ctx × String) (Ctx × Option ToolResult))

/-! ## Synthetic tools -/

/-- Execute function of the write_context tool: tries JSON.parse on the
value and stores the parsed value, falling back to the raw string when
parsing throws.  The unchecked destructuring cast of the source is
modelled by requiring both fields to be strings (the vendor validates tool
arguments against the declared input schema). -/
def writeContextExecute (context : Ctx) (params : Json) : Except (Ctx × String) (Ctx × ToolResult) :=
  match params.getField "key", params.getField "value" with
  | some (.str key), some (.str value) =>
    let vars :=
      match jsonParse value with
      | some parsedValue => varSet context.vars key parsedValue
      | none => varSet context.vars key (.str value)
    .ok ({ context with vars := vars },
         { image := none, text := none,
           raw := .obj [("success", .bool true), ("key", .str key), ("value", .str value)] })
  | _, _ => .error (context, "invalid parameters")

/-- Input schema of the write_context tool. -/
def writeContextSchema : Json :=
  .obj [("type", .str "object"),
        ("properties", .obj
          [("key", .obj [("type", .str "string")]),
           ("value", .obj [("type", .str "string")])]),
        ("required", .arr [.str "key", .str "value"])]

/-- Synthetic tool that lets the model write values to the context. -/
def writeContextTool : Tool :=
  { name := "write_context"
    description := "Write a value to the workflow context. Use this to store intermediate results or outputs."
    input_schema := writeContextSchema
    execute := writeContextExecute }

/-- Default schema advertised for the return value when the caller gives
no output schema. -/
def defaultReturnValueSchema : Json :=
  .obj [("type", .arr [.str "string", .str "number", .str "boolean", .str "object", .str "null"]),
        ("description", .str "The output value")]

/-- Execute function of the return_output tool: stores the value under the
reserved key __action_output.  The unchecked destructuring cast of the
source is modelled by requiring the value field to be present. -/
def returnToolExecute (context : Ctx) (params : Json) : Except (Ctx × String) (Ctx × ToolResult) :=
  match params.getField "value" with
  | some value =>
    .ok ({ context with vars := varSet context.vars "__action_output" value },
         { image := none, text := none, raw := .obj [("returned", value)] })
  | none => .error (context, "invalid parameters")

/-- Synthetic tool that returns the final output of the action,
parameterized by the optional output schema. -/
def createReturnTool (outputSchema : Option Json) : Tool :=
  { name := "return_output"
    description := "Return the final output of this action. Use this to return a value matching the required output schema."
    input_schema :=
      .obj [("type", .str "object"),
            ("properties", .obj [("value", outputSchema.getD defaultReturnValueSchema)]),
            ("required", .arr [.str "value"])]
    execute := returnToolExecute }

/-! ## Tool registry -/

/-- Tool registry, modelling a JavaScript Map from tool name to tool. -/
def ToolMap := List (String × Tool)

/-- Map.get on the tool registry. -/
def toolMapGet (m : ToolMap) (k : String) : Option Tool :=
  match m with
  | [] => none
  | (k2, v) :: rest => if k2 = k then some v else toolMapGet rest k

/-- Map.set on the tool registry: replaces in place or appends. -/
def toolMapSet (m : ToolMap) (k : String) (v : Tool) : ToolMap :=
  match m with
  | [] => [(k, v)]
  | (k2, v2) :: rest => if k2 = k then (k2, v) :: rest else (k2, v2) :: toolMapSet rest k v

/-- Registers a list of tools in order with Map.set keyed by tool name,
modelling tools.forEach of ActionImpl.execute. -/
def toolMapSetAll (m : ToolMap) (tools : List Tool) : ToolMap :=
  match tools with
  | [] => m
  | t :: rest => toolMapSetAll (toolMapSet m t.name t) rest

/-- Builds the tool registry of ActionImpl.execute: this.tools (the
declared tools with write_context appended by the constructor), then the
context tools, then the return tool. -/
def buildToolMap (actionTools : List Tool) (contextTools : List Tool) (returnTool : Tool) : ToolMap :=
  toolMapSet (toolMapSetAll (toolMapSetAll [] actionTools) contextTools) returnTool.name returnTool

/-! ## Round executor (ActionImpl.executeSingleRound) -/

/-- Assistant message carrying the tool_use block, synthesized by
onToolUse as soon as the tool call streams in.  The block records the
registered tool name and the input as streamed (a later hook replacement
rebinds toolCall.input and does not reach this already-built block). -/
def toolUseMessageOf (toolCall : ToolCall) (tool : Tool) : Message :=
  { role := .assistant
    content := .blocks [.toolUse toolCall.id tool.name toolCall.input] }

/-- User message carrying the literal skip tool_result, produced when the
beforeToolUse hook sets the skip or abort flag. -/
def skipResultMessage (toolCall : ToolCall) : Message :=
  { role := .user
    content := .blocks [.toolResult toolCall.id (.str "skip") false] }

/-- User message carrying the successful tool_result: an image block plus
an optional text block when the result has an image with a truthy type,
otherwise a single text block holding the stringified result. -/
def successResultMessage (toolCall : ToolCall) (result : ToolResult) : Message :=
  { role := .user
    content := .blocks
      [.toolResult toolCall.id
        (match result.image with
         | some source =>
           match result.text with
           | some t =>
             if t = "" then .blocks [.image source]
             else .blocks [.image source, .text t]
           | none => .blocks [.image source]
         | none => .blocks [.text (jsonStringify result.raw)])
        false] }

/-- User message carrying the error tool_result produced by the catch
branch of the tool execution unit. -/
def errorResultMessage (toolCall : ToolCall) (errorMessage : String) : Message :=
  { role := .user
    content := .blocks [.toolResult toolCall.id (.blocks [.text ("Error: " ++ errorMessage)]) true] }

/-- Tool execution unit launched by onToolUse (the async closure stored in
toolExecutionPromise): reset the skip flag, run the beforeToolUse hook
(which may replace the input or set skip/abort), short-circuit to the skip
result when skip or abort is set, otherwise run the tool and the
afterToolUse hook (which may replace the result).  Any throw along the way
is caught and converted into the error tool_result message.  The
beforeToolUse stage is factored out: it runs the hook when present, which
may replace the input (a falsy hook result keeps the original input). -/
def applyBeforeHook (hooks : Hooks) (tool : Tool) (toolCall : ToolCall) (ctx1 : Ctx) :
    Except (Ctx × String) (Ctx × Json) :=
  match hooks.beforeToolUse with
  | some h =>
    match h tool.name ctx1 toolCall.input with
    | .ok (c, some newInput) => .ok (c, newInput)
    | .ok (c, none) => .ok (c, toolCall.input)
    | .error e => .error e
  | none => .ok (ctx1, toolCall.input)

/-- Whole tool execution unit: before hook, skip short-circuit, tool
execute, after hook, with every throw caught into the error message. -/
def runToolUnit (hooks : Hooks) (tool : Tool) (toolCall : ToolCall) (ctx : Ctx) : Ctx × Message :=
  let ctx1 : Ctx := { ctx with skip := false }
  match applyBeforeHook hooks tool toolCall ctx1 with
  | .error (c, msg) => (c, errorResultMessage toolCall msg)
  | .ok (ctx2, input) =>
    if ctx2.skip || ctx2.abort then
      (ctx2, skipResultMessage toolCall)
    else
      match tool.execute ctx2 input with
      | .error (c, msg) => (c, errorResultMessage toolCall msg)
      | .ok (ctx3, result) =>
        match hooks.afterToolUse with
        | some h =>
          match h tool.name ctx3 result with
          | .ok (c, some newResult) => (c, successResultMessage toolCall newResult)
          | .ok (c, none) => (c, successResultMessage toolCall result)
          | .error (c, msg) => (c, errorResultMessage toolCall msg)
        | none => (ctx3, successResultMessage toolCall result)

/-- Canonical stream events delivered to the round handler by the
provider: the four handler callbacks of the LLMStreamHandler interface. -/
inductive StreamEvent where
  | onContent (content : String)
  | onToolUse (toolCall : ToolCall)
  | onComplete (response : LLMResponse)
  | onError (message : String)

/-- Accumulation state of one round: the buffers of executeSingleRound
together with the context being threaded through tool execution. -/
structure RoundState where
  ctx : Ctx
  hasToolUse : Bool
  response : Option LLMResponse
  assistantTextMessage : String
  toolUseMessage : Option Message
  toolResultMessage : Option Message

/-- Handler transition for one stream event.  onContent appends non-blank
content to the assistant text buffer.  onToolUse marks hasToolUse, and on
a registered tool synthesizes the tool_use message and runs the tool
execution unit (modelled at event time; the real unit runs concurrently
and is joined before assembly, which yields the same final state).  When
the tool name is not registered, the Error thrown inside the async
onToolUse callback only rejects the promise the provider never awaits, so
no further field changes.  onComplete stores the response; onError only
logs. -/
def handleEvent (hooks : Hooks) (toolMap : ToolMap) (st : RoundState) : StreamEvent → RoundState
  | .onContent content =>
    if strBlank content then st
    else { st with assistantTextMessage := st.assistantTextMessage ++ content }
  | .onToolUse toolCall =>
    let st1 := { st with hasToolUse := true }
    match toolMapGet toolMap toolCall.name with
    | none => st1
    | some tool =>
      let st2 := { st1 with toolUseMessage := some (toolUseMessageOf toolCall tool) }
      let r := runToolUnit hooks tool toolCall st2.ctx
      { st2 with ctx := r.1, toolResultMessage := some r.2 }
  | .onComplete response => { st with response := some response }
  | .onError _ => st

/-- Folds the handler transition over the whole event stream. -/
def processEvents (hooks : Hooks) (toolMap : ToolMap) (st : RoundState) : List StreamEvent → RoundState
  | [] => st
  | e :: rest => processEvents hooks toolMap (handleEvent hooks toolMap st e) rest

/-! ## History trimming (ActionImpl.handleHistoryImageMessages) -/

/-- Failure modes of a round: the TypeError thrown by the history trimming
pass on an empty tool_result content array, and the abort Error thrown
after the tool unit is joined. -/
inductive RoundError where
  | typeError
  | abortError
deriving DecidableEq

/-- Trims one content block of a non-exempt user message: on a tool_result
block whose content is a non-empty array, splice out the image sub-blocks;
on such a block with an empty array content, the else-branch of the source
reads tool_content[0].type of the empty array, which throws a TypeError. -/
def stripBlockImages : ContentBlock → Except RoundError ContentBlock
  | .toolResult toolUseId (.blocks items) isError =>
    if items.length > 0 then
      .ok (.toolResult toolUseId (.blocks (items.filter (fun sb => !sb.isImage))) isError)
    else
      .error .typeError
  | b => .ok b

/-- Trims every block of a block list, stopping at the first throw. -/
def stripBlocksImages : List ContentBlock → Except RoundError (List ContentBlock)
  | [] => .ok []
  | b :: rest =>
    match stripBlockImages b with
    | .ok b2 =>
      match stripBlocksImages rest with
      | .ok rest2 => .ok (b2 :: rest2)
      | .error e => .error e
    | .error e => .error e

/-- Trims one non-exempt user message; a message with raw string content
is left alone (message.content instanceof Array fails). -/
def trimUserMessage (m : Message) : Except RoundError Message :=
  match m.content with
  | .str _ => .ok m
  | .blocks l =>
    match stripBlocksImages l with
    | .ok l2 => .ok { m with content := .blocks l2 }
    | .error e => .error e

/-- Walks the reversed history with the last_user flag of the source: the
first user message seen (the most recent one) is exempt, every later user
message is trimmed, other roles pass through. -/
def trimHistoryRev (lastUser : Bool) : List Message → Except RoundError (List Message)
  | [] => .ok []
  | m :: rest =>
    if m.role = .user then
      if lastUser then
        match trimHistoryRev false rest with
        | .ok rest2 => .ok (m :: rest2)
        | .error e => .error e
      else
        match trimUserMessage m with
        | .ok m2 =>
          match trimHistoryRev false rest with
          | .ok rest2 => .ok (m2 :: rest2)
          | .error e => .error e
        | .error e => .error e
    else
      match trimHistoryRev lastUser rest with
      | .ok rest2 => .ok (m :: rest2)
      | .error e => .error e

/-- History trimming pass run at the start of every round: removes all
images from historical tool call results, except for the most recent user
message.  The source mutates the array in place; the model returns the
updated history, and an error models the thrown TypeError. -/
def handleHistoryImageMessages (messages : List Message) : Except RoundError (List Message) :=
  match trimHistoryRev true messages.reverse with
  | .ok rev2 => .ok rev2.reverse
  | .error e => .error e

/-! ## Round result assembly -/

/-- Result triple of one round. -/
structure RoundResult where
  response : Option LLMResponse
  hasToolUse : Bool
  roundMessages : List Message

/-- Assembles the round messages in order once the stream has settled and
the tool unit is joined: assistant text (if the buffer is non-empty), then
the tool_use message, then the tool_result message. -/
def assembleRoundMessages (st : RoundState) : List Message :=
  (if st.assistantTextMessage = "" then []
   else [{ role := .assistant, content := .str st.assistantTextMessage }])
  ++ st.toolUseMessage.toList ++ st.toolResultMessage.toList

/-- Initial round state over a context. -/
def initRoundState (ctx : Ctx) : RoundState :=
  { ctx := ctx, hasToolUse := false, response := none,
    assistantTextMessage := "", toolUseMessage := none, toolResultMessage := none }

/-- One model round: trim the history, consume the stream (joining the
tool unit), fail on an observed abort flag, then assemble the round
result.  The trimmed history is returned alongside, because the source
trims the shared messages array in place. -/
def executeSingleRound (hooks : Hooks) (toolMap : ToolMap) (events : List StreamEvent)
    (messages : List Message) (ctx : Ctx) :
    Except RoundError (Ctx × List Message × RoundResult) :=
  match handleHistoryImageMessages messages with
  | .error e => .error e
  | .ok trimmed =>
    let st := processEvents hooks toolMap (initRoundState ctx) events
    if st.ctx.abort then .error .abortError
    else .ok (st.ctx, trimmed,
      { response := st.response, hasToolUse := st.hasToolUse,
        roundMessages := assembleRoundMessages st })

/-! ## Action loop (ActionImpl.execute) -/

/-- Static data of one ActionImpl instance. -/
structure ActionImpl where
  name : String
  description : String
  tools : List Tool
  maxRounds : Nat

/-- Constructor of ActionImpl: appends the write_context tool to the
declared tools, and overrides the default budget of 10 rounds only when
config.maxRounds is truthy (a configured budget of 0 is falsy and keeps
the default). -/
def mkActionImpl (name description : String) (tools : List Tool) (config : Option Nat) : ActionImpl :=
  { name := name
    description := description
    tools := tools ++ [writeContextTool]
    maxRounds :=
      match config with
      | some m => if m = 0 then 10 else m
      | none => 10 }

/-- Fixed instructional system prompt of the action loop. -/
def formatSystemPrompt : String :=
  "You are a task executor. You need to complete the task specified by the user, using the tools provided. When you need to store results or outputs, use the write_context tool. When you are ready to return the final output, use the return_output tool.\n\n    Remember to:\n    1. Use tools when needed to accomplish the task\n    2. Store important results using write_context, including intermediate and final results\n    3. Think step by step about what needs to be done"

/-- User prompt built from the action name and description, the current
variables snapshot and the caller input. -/
def formatUserPrompt (action : ActionImpl) (vars : VarMap) (input : Json) : String :=
  let contextDescription :=
    String.intercalate "\n" (vars.map (fun p => p.1 ++ ": " ++ jsonStringify p.2))
  let inputText :=
    match input with
    | .str s => s
    | j => jsonStringify j
  "You are executing the action \"" ++ action.name ++ "\". The specific instructions are: \"" ++
    action.description ++ "\". You have access to the following context:\n\n    " ++
    (if contextDescription = "" then "No context variables set" else contextDescription) ++
    "\n\n    You have been provided with the following input:\n    " ++
    (if inputText = "" then "No additional input provided" else inputText) ++ "\n    "

/-- Instruction pushed when a round produced no tool call but did yield a
response. -/
def explicitReturnInstruction : Message :=
  { role := .user
    content := .str "Please process the above information and return a final result using the return_output tool." }

/-- Instruction pushed when the round budget has just been exhausted. -/
def maxRoundsInstruction : Message :=
  { role := .user
    content := .str "Maximum number of steps reached. Please return the best result possible with the return_output tool." }

/-- Checks whether the settled response includes a tool_use call named
return_output. -/
def responseHasReturnOutput (response : Option LLMResponse) : Bool :=
  match response with
  | some r => r.toolCalls.any (fun c => c.name == "return_output")
  | none => false

/-- Round loop of ActionImpl.execute.  The streams oracle gives the
canonical event list of the k-th model call (the provider is an external
collaborator).  The fuel argument is the structural form of the while
condition: the loop of the source runs while roundCount < maxRounds, and
executeAction enters with fuel = maxRounds and roundCount = 0, so fuel =
maxRounds - roundCount throughout and fuel = 0 exactly when the while
condition fails.  The returned number counts all executeSingleRound
calls, including a call that threw. -/
def runRounds (hooks : Hooks) (toolMap : ToolMap) (returnOnlyMap : ToolMap)
    (streams : Nat → List StreamEvent) (maxRounds : Nat) :
    Nat → Nat → Nat → List Message → Ctx → Nat × Except RoundError (Ctx × List Message)
  | 0, _, calls, messages, ctx => (calls, .ok (ctx, messages))
  | fuel+1, roundCount, calls, messages, ctx =>
    match executeSingleRound hooks toolMap (streams calls) messages ctx with
    | .error e => (calls + 1, .error e)
    | .ok (ctx1, messages1, res) =>
      let messages2 := messages1 ++ res.roundMessages
      if !res.hasToolUse && res.response.isSome then
        let messages3 := messages2 ++ [explicitReturnInstruction]
        match executeSingleRound hooks returnOnlyMap (streams (calls + 1)) messages3 ctx1 with
        | .error e => (calls + 2, .error e)
        | .ok (ctx2, messages4, res2) =>
          (calls + 2, .ok (ctx2, messages4 ++ res2.roundMessages))
      else if responseHasReturnOutput res.response then
        (calls + 1, .ok (ctx1, messages2))
      else if roundCount + 1 = maxRounds then
        let messages3 := messages2 ++ [maxRoundsInstruction]
        match executeSingleRound hooks returnOnlyMap (streams (calls + 1)) messages3 ctx1 with
        | .error e => (calls + 2, .error e)
        | .ok (ctx2, messages4, res2) =>
          runRounds hooks toolMap returnOnlyMap streams maxRounds
            fuel (roundCount + 1) (calls + 2) (messages4 ++ res2.roundMessages) ctx2
      else
        runRounds hooks toolMap returnOnlyMap streams maxRounds
          fuel (roundCount + 1) (calls + 1) messages2 ctx1

/-- ActionImpl.execute: build the return tool and the registry, seed the
conversation, run the round loop, then read and delete the reserved
__action_output variable, returning an empty object when it was never
set.  The first component counts the executeSingleRound calls made. -/
def executeAction (act : ActionImpl) (hooks : Hooks) (contextTools : List Tool)
    (outputSchema : Option Json) (streams : Nat → List StreamEvent)
    (input : Json) (ctx : Ctx) : Nat × Except RoundError (Ctx × Json) :=
  let returnTool := createReturnTool outputSchema
  let toolMap := buildToolMap act.tools contextTools returnTool
  let returnOnlyMap : ToolMap := [(returnTool.name, returnTool)]
  let messages : List Message :=
    [{ role := .system, content := .str formatSystemPrompt },
     { role := .user, content := .str (formatUserPrompt act ctx.vars input) }]
  match runRounds hooks toolMap returnOnlyMap streams act.maxRounds
          act.maxRounds 0 0 messages ctx with
  | (calls, .error e) => (calls, .error e)
  | (calls, .ok (ctxL, _)) =>
    let output := varGet ctxL.vars "__action_output"
    (calls, .ok ({ ctxL with vars := varDelete ctxL.vars "__action_output" },
                 output.getD (.obj [])))

/-! ## Stream normalization (ClaudeProvider.generateStream) -/

/-- Accumulator for one streamed tool-use block. -/
structure CurrentToolUse where
  id : String
  name : String
  accumulatedJson : String

/-- Vendor wire events of one streamed model call, as consumed by the
switch of ClaudeProvider.generateStream; events of other types fall
through the switch. -/
inductive VendorEvent where
  | contentBlockStartText
  | contentBlockStartToolUse (id : String) (name : String)
  | contentBlockDeltaText (text : String)
  | contentBlockDeltaInputJson (fragment : String)
  | contentBlockStop
  | otherEvent
  | transportError (message : String)

/-- Event loop of ClaudeProvider.generateStream: translates vendor events
into handler calls, maintaining at most one current tool accumulator.  A
block-start for a tool_use block opens the accumulator, each input-json
delta appends its raw fragment, and the matching block-stop parses the
accumulated text (an empty accumulation parses as the empty object
because of the accumulatedJson-or-braces fallback) and invokes onToolUse.
A JSON.parse throw or a transport throw is caught by the surrounding try:
onError is invoked and consumption stops; the boolean records that the
call failed, in which case onComplete is never reached. -/
def processVendorEvents : Option CurrentToolUse → List VendorEvent → List StreamEvent × Bool
  | _, [] => ([], false)
  | cur, e :: rest =>
    match e with
    | .contentBlockStartText =>
      let r := processVendorEvents cur rest
      (.onContent "" :: r.1, r.2)
    | .contentBlockStartToolUse id name =>
      processVendorEvents (some { id := id, name := name, accumulatedJson := "" }) rest
    | .contentBlockDeltaText t =>
      let r := processVendorEvents cur rest
      (.onContent t :: r.1, r.2)
    | .contentBlockDeltaInputJson fragment =>
      match cur with
      | some p =>
        processVendorEvents (some { p with accumulatedJson := p.accumulatedJson ++ fragment }) rest
      | none => processVendorEvents none rest
    | .contentBlockStop =>
      match cur with
      | some p =>
        match jsonParse (if p.accumulatedJson = "" then String.mk [lbraceChar, rbraceChar]
                         else p.accumulatedJson) with
        | some input =>
          let r := processVendorEvents none rest
          (.onToolUse { id := p.id, name := p.name, input := input } :: r.1, r.2)
        | none => ([.onError "JSON.parse: unexpected token"], true)
      | none => processVendorEvents none rest
    | .otherEvent => processVendorEvents cur rest
    | .transportError msg => ([.onError msg], true)

/-- ClaudeProvider.generateStream as the round executor observes it: the
translated handler calls, followed by onComplete with the processed final
message when no error interrupted consumption. -/
def generateStream (events : List VendorEvent) (finalResponse : LLMResponse) : List StreamEvent :=
  let r := processVendorEvents none events
  if r.2 then r.1 else r.1 ++ [.onComplete finalResponse]

/-! ## Claim-support predicates -/

/-- Returns true on a tool_use content block. -/
def ContentBlock.isToolUseB : ContentBlock → Bool
  | .toolUse _ _ _ => true
  | _ => false

/-- Returns true on a tool_result content block. -/
def ContentBlock.isToolResultB : ContentBlock → Bool
  | .toolResult _ _ _ => true
  | _ => false

/-- Returns true on a tool_result block whose content is the empty
array. -/
def ContentBlock.isEmptyToolResultB : ContentBlock → Bool
  | .toolResult _ (.blocks items) _ => items.isEmpty
  | _ => false

/-- An assistant message carrying a tool_use block. -/
def isToolUseMsg (m : Message) : Bool :=
  (m.role == .assistant) &&
    (match m.content with
     | .blocks l => l.any ContentBlock.isToolUseB
     | .str _ => false)

/-- A user message carrying a tool_result block. -/
def isToolResultMsg (m : Message) : Bool :=
  (m.role == .user) &&
    (match m.content with
     | .blocks l => l.any ContentBlock.isToolResultB
     | .str _ => false)

/-- A message containing a tool_result block with empty array content
(the shape on which the trimming pass throws). -/
def hasEmptyToolResult (m : Message) : Bool :=
  match m.content with
  | .blocks l => l.any ContentBlock.isEmptyToolResultB
  | .str _ => false

/-- Image stripping as the trimming pass applies it to one block of a
non-exempt user message that it does not throw on: sub-block image
filtering on tool_result array contents, identity elsewhere. -/
def stripImagesInBlock : ContentBlock → ContentBlock
  | .toolResult toolUseId (.blocks items) isError =>
    .toolResult toolUseId (.blocks (items.filter (fun sb => !sb.isImage))) isError
  | b => b

/-- Image stripping over a whole message with array content; a raw string
content is untouched. -/
def stripImagesMsg (m : Message) : Message :=
  match m.content with
  | .str _ => m
  | .blocks l => { m with content := .blocks (l.map stripImagesInBlock) }

/-- Image stripping applied to user messages only, as the trimming pass
does for every message before the most recent user message. -/
def condStripUser (m : Message) : Message :=
  if m.role == .user then stripImagesMsg m else m

/-- The last tool carrying a given name in a list, the reference
description of which registry entry wins a name collision. -/
def lastToolNamed (n : String) : List Tool → Option Tool
  | [] => none
  | t :: rest =>
    match lastToolNamed n rest with
    | some u => some u
    | none => if t.name = n then some t else none

/-- One of the three throw sources the tool execution unit can observe
with message emsg: the beforeToolUse hook, the tool execute call, or the
afterToolUse hook. -/
def unitObservesThrow (hooks : Hooks) (tool : Tool) (toolCall : ToolCall) (ctx1 : Ctx)
    (emsg : String) : Prop :=
  (∃ c, applyBeforeHook hooks tool toolCall ctx1 = .error (c, emsg))
  ∨ (∃ ctx2 input c, applyBeforeHook hooks tool toolCall ctx1 = .ok (ctx2, input)
       ∧ (ctx2.skip || ctx2.abort) = false
       ∧ tool.execute ctx2 input = .error (c, emsg))
  ∨ (∃ ctx2 input ctx3 result h c, applyBeforeHook hooks tool toolCall ctx1 = .ok (ctx2, input)
       ∧ (ctx2.skip || ctx2.abort) = false
       ∧ tool.execute ctx2 input = .ok (ctx3, result)
       ∧ hooks.afterToolUse = some h
       ∧ h tool.name ctx3 result = .error (c, emsg))

/-- A stream event that is a tool call named return_output. -/
def isReturnOutputCall : StreamEvent → Bool
  | .onToolUse tc => tc.name == "return_output"
  | _ => false

/-! ## Concrete instances used by witnesses and counterexamples -/

/-- Empty hook set. -/
def noHooks : Hooks := { beforeToolUse := none, afterToolUse := none }

/-- Fresh execution context. -/
def emptyCtx : Ctx := { vars := [], skip := false, abort := false }

/-- A registered write_context call storing 42 under x. -/
def wcCall : ToolCall :=
  { id := "toolu_1", name := "write_context",
    input := .obj [("key", .str "x"), ("value", .str "42")] }

/-- Response settling a round whose single tool call is wcCall. -/
def wcResponse : LLMResponse :=
  { textContent := none, toolCalls := [wcCall], stop_reason := some "tool_use" }

/-- Registry holding only the write_context tool. -/
def wcOnlyMap : ToolMap := [("write_context", writeContextTool)]

/-- Round result of the wcCall round, used by the witness of the pairing
claim. -/
def wcRoundResult : RoundResult :=
  { response := some wcResponse
    hasToolUse := true
    roundMessages :=
      [toolUseMessageOf wcCall writeContextTool,
       successResultMessage wcCall
         { image := none, text := none,
           raw := .obj [("success", .bool true), ("key", .str "x"), ("value", .str "42")] }] }

/-- A write_context call that targets the reserved output key directly. -/
def hijackCall : ToolCall :=
  { id := "toolu_2", name := "write_context",
    input := .obj [("key", .str "__action_output"), ("value", .str "7")] }

/-- Response settling the hijack round. -/
def hijackResponse : LLMResponse :=
  { textContent := none, toolCalls := [hijackCall], stop_reason := some "tool_use" }

/-- Stream oracle of the output-hijacking run: round one calls
write_context on the reserved key, every later stream is empty and in
particular return_output is never invoked. -/
def hijackStreams : Nat → List StreamEvent
  | 0 => [.onToolUse hijackCall, .onComplete hijackResponse]
  | _ + 1 => []

/-- Action with no declared tools and a budget of one round. -/
def oneRoundAction : ActionImpl := mkActionImpl "demo" "store a value" [] (some 1)

/-- Tool whose execute always throws with message boom. -/
def boomTool : Tool :=
  { name := "boom", description := "always throws", input_schema := .obj []
    execute := fun c _ => .error (c, "boom") }

/-- Registry holding only the boom tool. -/
def boomOnlyMap : ToolMap := [("boom", boomTool)]

/-- Model call of the boom tool. -/
def boomCall : ToolCall := { id := "toolu_3", name := "boom", input := .obj [] }

/-- Response settling the boom round. -/
def boomResponse : LLMResponse :=
  { textContent := none, toolCalls := [boomCall], stop_reason := some "tool_use" }

/-- Stream oracle whose first round is the boom round. -/
def boomStreams : Nat → List StreamEvent
  | 0 => [.onToolUse boomCall, .onComplete boomResponse]
  | _ + 1 => []

/-- Model call naming a tool missing from every registry below. -/
def unknownCall : ToolCall :=
  { id := "toolu_4", name := "nonexistent_tool", input := .obj [] }

/-- Response settling the unknown-tool round. -/
def unknownResponse : LLMResponse :=
  { textContent := none, toolCalls := [unknownCall], stop_reason := some "tool_use" }

/-- Stream oracle whose first round calls the unknown tool. -/
def unknownStreams : Nat → List StreamEvent
  | 0 => [.onToolUse unknownCall, .onComplete unknownResponse]
  | _ + 1 => []

/-- Seed history of the concrete runs: system prompt plus user prompt. -/
def seedMessages : List Message :=
  [{ role := .system, content := .str formatSystemPrompt },
   { role := .user, content := .str "solve the task" }]

/-- Context-supplied tool that reuses the write_context name. -/
def shadowWriteContext : Tool :=
  { name := "write_context", description := "context-supplied shadow", input_schema := .obj []
    execute := fun c _ => .ok (c, { image := none, text := none, raw := .null }) }

/-- User message whose tool_result content holds an image and a text
sub-block. -/
def imageUserMsg : Message :=
  { role := .user
    content := .blocks
      [.toolResult "toolu_5" (.blocks [.image (.str "img-src"), .text "seen"]) false] }

/-- User message whose tool_result content is the empty array. -/
def emptyResultUserMsg : Message :=
  { role := .user
    content := .blocks [.toolResult "toolu_6" (.blocks []) false] }

/-- Later user message exempting the earlier ones from the trim. -/
def laterUserMsg : Message := { role := .user, content := .str "continue" }

/-- Fragment list streamed for one tool-use block in the normalization
witness. -/
def c7Frags : List String := ["\x7b\"a\":", "1\x7d"]

/-- The imageUserMsg after image stripping. -/
def strippedImageUserMsg : Message :=
  { role := .user
    content := .blocks [.toolResult "toolu_5" (.blocks [.text "seen"]) false] }

/-- Context state after the wcCall round. -/
def c1CtxOut : Ctx := { vars := [("x", .num 42)], skip := false, abort := false }

/-! ## Basic lemmas about the map models -/

theorem varGet_varSet_self (m : VarMap) (k : String) (v : Json) :
    varGet (varSet m k v) k = some v := by
  induction m with
  | nil => simp [varSet, varGet]
  | cons p rest ih =>
    obtain ⟨k2, v2⟩ := p
    by_cases h : k2 = k <;> simp [varSet, varGet, h, ih]

theorem varGet_varDelete_self (m : VarMap) (k : String) :
    varGet (varDelete m k) k = none := by
  induction m with
  | nil => simp [varDelete, varGet]
  | cons p rest ih =>
    obtain ⟨k2, v2⟩ := p
    by_cases h : k2 = k <;> simp [varDelete, varGet, h, ih]

theorem varGet_varDelete_ne (m : VarMap) (k k2 : String) (h : k2 ≠ k) :
    varGet (varDelete m k) k2 = varGet m k2 := by
  induction m with
  | nil => simp [varDelete, varGet]
  | cons p rest ih =>
    obtain ⟨ka, va⟩ := p
    by_cases ha : ka = k
    · have hne : ¬ ka = k2 := fun hc => h (hc.symm.trans ha)
      have hkk2 : ¬ k = k2 := fun hc => h hc.symm
      simp [varDelete, varGet, ha, hne, hkk2, ih]
    · simp [varDelete, varGet, ha, ih]

theorem toolMapGet_toolMapSet (m : ToolMap) (k : String) (v : Tool) (n : String) :
    toolMapGet (toolMapSet m k v) n = if n = k then some v else toolMapGet m n := by
  induction m with
  | nil =>
    by_cases h : n = k
    · subst h
      simp [toolMapSet, toolMapGet]
    · have h2 : ¬ k = n := fun hc => h hc.symm
      simp [toolMapSet, toolMapGet, h, h2]
  | cons p rest ih =>
    obtain ⟨k2, v2⟩ := p
    by_cases h : k2 = k
    · subst h
      by_cases h2 : n = k2
      · subst h2
        simp [toolMapSet, toolMapGet]
      · have h3 : ¬ k2 = n := fun hc => h2 hc.symm
        simp [toolMapSet, toolMapGet, h2, h3]
    · by_cases h2 : k2 = n
      · subst h2
        have h3 : ¬ k2 = k := h
        simp [toolMapSet, toolMapGet, h3, fun hc => h3 (hc : k2 = k)]
      · simp [toolMapSet, toolMapGet, h, h2, ih]

theorem toolMapGet_toolMapSetAll (m : ToolMap) (ts : List Tool) (n : String) :
    toolMapGet (toolMapSetAll m ts) n
      = match lastToolNamed n ts with
        | some t => some t
        | none => toolMapGet m n := by
  induction ts generalizing m with
  | nil => simp [toolMapSetAll, lastToolNamed]
  | cons t rest ih =>
    show toolMapGet (toolMapSetAll (toolMapSet m t.name t) rest) n = _
    rw [ih]
    cases hl : lastToolNamed n rest with
    | some u => simp [lastToolNamed, hl]
    | none =>
      rw [toolMapGet_toolMapSet]
      by_cases h : n = t.name
      · rw [h] at hl
        simp [lastToolNamed, hl, h]
      · have h2 : ¬ t.name = n := fun hc => h hc.symm
        simp [lastToolNamed, hl, h, h2]

theorem lastToolNamed_append (n : String) (l1 l2 : List Tool) :
    lastToolNamed n (l1 ++ l2)
      = match lastToolNamed n l2 with
        | some u => some u
        | none => lastToolNamed n l1 := by
  induction l1 with
  | nil =>
    simp only [List.nil_append]
    cases h : lastToolNamed n l2 <;> simp [h, lastToolNamed]
  | cons t rest ih =>
    simp only [List.cons_append, lastToolNamed, List.append_eq]
    rw [ih]
    cases h2 : lastToolNamed n l2 <;> cases h3 : lastToolNamed n rest <;>
      simp [lastToolNamed, h2, h3]

/-! ## Claim theorems -/

/-- C8: for every invocation of the write_context tool with arguments key
k and string v, the context variable store afterwards maps k to the JSON
parse of v when v parses, and to the literal string v otherwise; in
particular the string 42 is stored as the number 42 and the string
not-json is stored as itself. -/
theorem c8_write_context_parse_or_raw :
    (∀ ctx k v,
      writeContextTool.execute ctx (.obj [("key", .str k), ("value", .str v)])
        = .ok ({ ctx with vars := varSet ctx.vars k ((jsonParse v).getD (.str v)) },
               { image := none, text := none,
                 raw := .obj [("success", .bool true), ("key", .str k), ("value", .str v)] })
      ∧ varGet (varSet ctx.vars k ((jsonParse v).getD (.str v))) k
          = some ((jsonParse v).getD (.str v)))
    ∧ jsonParse "42" = some (.num 42)
    ∧ jsonParse "not-json" = none := by
  refine ⟨fun ctx k v => ⟨?_, varGet_varSet_self _ _ _⟩, rfl, rfl⟩
  cases hp : jsonParse v <;>
    simp [writeContextTool, writeContextExecute, Json.getField, List.find?, hp]

/-- C9 (amended): in the registry of ActionImpl.execute a lookup returns
the last tool carrying the looked-up name in the order declared tools,
then the synthetic write_context (appended by the constructor), then the
context-supplied tools, then the synthetic return_output; later entries
win a name collision, so a context-supplied tool named write_context
shadows the synthetic write_context, while the synthetic return_output is
registered last and always wins its name. -/
theorem c9_registry_last_entry_wins :
    (∀ (actionTools contextTools : List Tool) (returnTool : Tool) (n : String),
      toolMapGet (buildToolMap actionTools contextTools returnTool) n
        = lastToolNamed n (actionTools ++ contextTools ++ [returnTool]))
    ∧ (∀ (actionTools contextTools : List Tool) (os : Option Json),
      toolMapGet (buildToolMap actionTools contextTools (createReturnTool os)) "return_output"
        = some (createReturnTool os)) := by
  have main : ∀ (actionTools contextTools : List Tool) (returnTool : Tool) (n : String),
      toolMapGet (buildToolMap actionTools contextTools returnTool) n
        = lastToolNamed n (actionTools ++ contextTools ++ [returnTool]) := by
    intro aT cT rt n
    show toolMapGet (toolMapSet (toolMapSetAll (toolMapSetAll [] aT) cT) rt.name rt) n = _
    rw [toolMapGet_toolMapSet, toolMapGet_toolMapSetAll, toolMapGet_toolMapSetAll,
        lastToolNamed_append, lastToolNamed_append]
    by_cases h : n = rt.name
    · have h2 : rt.name = n := h.symm
      have hr : lastToolNamed n [rt] = some rt := by
        simp [lastToolNamed, h2]
      rw [hr, if_pos h]
    · have h2 : ¬ rt.name = n := fun hc => h hc.symm
      simp only [lastToolNamed, h2, if_neg h2, if_neg h]
      cases lastToolNamed n cT <;> cases lastToolNamed n aT <;> simp [toolMapGet]
  refine ⟨main, fun aT cT os => ?_⟩
  rw [main]
  rw [lastToolNamed_append]
  simp [lastToolNamed, createReturnTool]

/-- C9 counterexample: the claimed registration order (context tools
before both synthetic tools) fails for write_context.  With no declared
tools and a single context-supplied tool named write_context, the registry
resolves write_context to the context-supplied tool, not to the synthetic
one, because the synthetic write_context is registered before the context
tools. -/
theorem c9_counterexample_context_shadows_write_context :
    (toolMapGet (buildToolMap oneRoundAction.tools [shadowWriteContext] (createReturnTool none))
        "write_context").map (fun t => t.description)
      = some "context-supplied shadow"
    ∧ writeContextTool.description ≠ "context-supplied shadow" := by
  refine ⟨rfl, ?_⟩
  intro h
  exact absurd h (by decide)

/-- Appending input-json delta events folds their raw fragments, in
arrival order, onto the open accumulator. -/
theorem pve_accumulates (frags : List String) (id name : String) (acc : String)
    (evs : List VendorEvent) :
    processVendorEvents (some { id := id, name := name, accumulatedJson := acc })
        (frags.map VendorEvent.contentBlockDeltaInputJson ++ evs)
      = processVendorEvents
          (some { id := id, name := name,
                  accumulatedJson := frags.foldl (fun a f => a ++ f) acc }) evs := by
  induction frags generalizing acc with
  | nil => simp
  | cons f fs ih =>
    simp only [List.map_cons, List.cons_append, processVendorEvents, List.foldl_cons]
    exact ih (acc ++ f)

/-- C7: in ClaudeProvider.generateStream, the raw fragments of a streamed
tool-use block are concatenated in arrival order into the current tool
accumulator, and the block-stop event invokes onToolUse exactly once with
input equal to the JSON parse of the accumulated text (processing then
continues with the accumulator closed); an empty accumulated text parses
as the empty object. -/
theorem c7_tool_block_accumulation :
    (∀ (id name : String) (frags : List String) (rest : List VendorEvent) (v : Json),
      jsonParse (if frags.foldl (fun a f => a ++ f) "" = ""
                 then String.mk [lbraceChar, rbraceChar]
                 else frags.foldl (fun a f => a ++ f) "") = some v →
      processVendorEvents none
          (.contentBlockStartToolUse id name ::
            (frags.map .contentBlockDeltaInputJson ++ .contentBlockStop :: rest))
        = (.onToolUse { id := id, name := name, input := v } ::
            (processVendorEvents none rest).1,
           (processVendorEvents none rest).2))
    ∧ jsonParse (String.mk [lbraceChar, rbraceChar]) = some (.obj []) := by
  refine ⟨fun id name frags rest v h => ?_, rfl⟩
  show processVendorEvents (some { id := id, name := name, accumulatedJson := "" })
      (frags.map .contentBlockDeltaInputJson ++ .contentBlockStop :: rest) = _
  rw [pve_accumulates]
  simp only [processVendorEvents, h]

/-- Witness for C7: streaming the two fragments of a small JSON object
yields one onToolUse call carrying the parsed object. -/
theorem c7_witness :
    processVendorEvents none
        (.contentBlockStartToolUse "toolu_7" "write_context" ::
          (c7Frags.map .contentBlockDeltaInputJson ++ .contentBlockStop :: []))
      = (.onToolUse { id := "toolu_7", name := "write_context",
                      input := .obj [("a", .num 1)] } ::
          (processVendorEvents none []).1,
         (processVendorEvents none []).2) :=
  (c7_tool_block_accumulation.1 "toolu_7" "write_context" c7Frags []
    (.obj [("a", .num 1)]) rfl)

/-! ## History trimming lemmas -/

theorem stripBlockImages_ok (b b2 : ContentBlock) (h : stripBlockImages b = .ok b2) :
    b2 = stripImagesInBlock b := by
  cases b with
  | toolResult tid c e =>
    cases c with
    | str s =>
      simp only [stripBlockImages] at h
      injection h with h2
      subst h2
      rfl
    | blocks items =>
      cases items with
      | nil => simp [stripBlockImages] at h
      | cons x xs =>
        simp only [stripBlockImages, List.length_cons] at h
        rw [if_pos (Nat.succ_pos xs.length)] at h
        injection h with h2
        subst h2
        rfl
  | text t =>
    simp only [stripBlockImages] at h
    injection h with h2
    subst h2
    rfl
  | toolUse a b3 c3 =>
    simp only [stripBlockImages] at h
    injection h with h2
    subst h2
    rfl
  | image src =>
    simp only [stripBlockImages] at h
    injection h with h2
    subst h2
    rfl

theorem stripBlockImages_error_typeError (b : ContentBlock) (e : RoundError)
    (h : stripBlockImages b = .error e) : e = .typeError := by
  cases b with
  | toolResult tid c er =>
    cases c with
    | str s => simp [stripBlockImages] at h
    | blocks items =>
      cases items with
      | nil =>
        simp only [stripBlockImages] at h
        rw [if_neg (by simp)] at h
        injection h with h2
        exact h2.symm
      | cons x xs =>
        simp only [stripBlockImages, List.length_cons] at h
        rw [if_pos (Nat.succ_pos xs.length)] at h
        cases h
  | text t => simp [stripBlockImages] at h
  | toolUse a b3 c3 => simp [stripBlockImages] at h
  | image src => simp [stripBlockImages] at h

theorem stripBlockImages_error_iff (b : ContentBlock) :
    stripBlockImages b = .error .typeError ↔ ContentBlock.isEmptyToolResultB b = true := by
  cases b with
  | toolResult tid c e =>
    cases c with
    | str s => simp [stripBlockImages, ContentBlock.isEmptyToolResultB]
    | blocks items =>
      cases items with
      | nil => simp [stripBlockImages, ContentBlock.isEmptyToolResultB]
      | cons x xs =>
        simp only [stripBlockImages, List.length_cons]
        rw [if_pos (Nat.succ_pos xs.length)]
        simp [ContentBlock.isEmptyToolResultB]
  | text t => simp [stripBlockImages, ContentBlock.isEmptyToolResultB]
  | toolUse a b3 c3 => simp [stripBlockImages, ContentBlock.isEmptyToolResultB]
  | image src => simp [stripBlockImages, ContentBlock.isEmptyToolResultB]

theorem stripBlocksImages_ok (l : List ContentBlock) :
    ∀ l2, stripBlocksImages l = .ok l2 → l2 = l.map stripImagesInBlock := by
  induction l with
  | nil =>
    intro l2 h
    simp only [stripBlocksImages] at h
    injection h with h2
    subst h2
    rfl
  | cons b rest ih =>
    intro l2 h
    simp only [stripBlocksImages] at h
    cases hb : stripBlockImages b with
    | error e => rw [hb] at h; cases h
    | ok b2 =>
      rw [hb] at h
      cases hr : stripBlocksImages rest with
      | error e => rw [hr] at h; cases h
      | ok r2 =>
        rw [hr] at h
        injection h with h2
        subst h2
        rw [List.map_cons, stripBlockImages_ok b b2 hb, ih r2 hr]

theorem stripBlocksImages_error_typeError (l : List ContentBlock) :
    ∀ e, stripBlocksImages l = .error e → e = .typeError := by
  induction l with
  | nil => intro e h; simp [stripBlocksImages] at h
  | cons b rest ih =>
    intro e h
    simp only [stripBlocksImages] at h
    cases hb : stripBlockImages b with
    | error e2 =>
      rw [hb] at h
      injection h with h2
      exact h2 ▸ stripBlockImages_error_typeError b e2 hb
    | ok b2 =>
      rw [hb] at h
      cases hr : stripBlocksImages rest with
      | error e2 =>
        rw [hr] at h
        injection h with h2
        exact h2 ▸ ih e2 hr
      | ok r2 => rw [hr] at h; cases h

theorem stripBlocksImages_error_iff (l : List ContentBlock) :
    stripBlocksImages l = .error .typeError ↔ l.any ContentBlock.isEmptyToolResultB = true := by
  induction l with
  | nil => simp [stripBlocksImages]
  | cons b rest ih =>
    simp only [stripBlocksImages, List.any_cons]
    cases hb : stripBlockImages b with
    | error e =>
      have he : e = .typeError := stripBlockImages_error_typeError b e hb
      subst he
      have hemp : ContentBlock.isEmptyToolResultB b = true :=
        (stripBlockImages_error_iff b).mp hb
      simp [hemp]
    | ok b2 =>
      have hemp : ContentBlock.isEmptyToolResultB b = false := by
        cases hc : ContentBlock.isEmptyToolResultB b
        · rfl
        · exact absurd ((stripBlockImages_error_iff b).mpr hc) (by simp [hb])
      cases hr : stripBlocksImages rest with
      | error e2 =>
        have he2 : e2 = .typeError := stripBlocksImages_error_typeError rest e2 hr
        subst he2
        simp [hemp, ih.mp hr]
      | ok r2 =>
        have hrest : rest.any ContentBlock.isEmptyToolResultB = false := by
          cases hc : rest.any ContentBlock.isEmptyToolResultB
          · rfl
          · exact absurd (ih.mpr hc) (by simp [hr])
        simp [hemp, hrest]

theorem trimUserMessage_ok (m m2 : Message) (h : trimUserMessage m = .ok m2) :
    m2 = stripImagesMsg m := by
  cases hm : m.content with
  | str s =>
    simp only [trimUserMessage, hm] at h
    injection h with h2
    subst h2
    simp [stripImagesMsg, hm]
  | blocks l =>
    simp only [trimUserMessage, hm] at h
    cases hl : stripBlocksImages l with
    | error e => rw [hl] at h; cases h
    | ok l2 =>
      rw [hl] at h
      injection h with h2
      subst h2
      simp [stripImagesMsg, hm, stripBlocksImages_ok l l2 hl]

theorem trimUserMessage_error_typeError (m : Message) (e : RoundError)
    (h : trimUserMessage m = .error e) : e = .typeError := by
  cases hm : m.content with
  | str s => simp [trimUserMessage, hm] at h
  | blocks l =>
    simp only [trimUserMessage, hm] at h
    cases hl : stripBlocksImages l with
    | error e2 =>
      rw [hl] at h
      injection h with h2
      exact h2 ▸ stripBlocksImages_error_typeError l e2 hl
    | ok l2 => rw [hl] at h; cases h

theorem trimUserMessage_error_iff (m : Message) :
    trimUserMessage m = .error .typeError ↔ hasEmptyToolResult m = true := by
  cases hm : m.content with
  | str s => simp [trimUserMessage, hasEmptyToolResult, hm]
  | blocks l =>
    simp only [trimUserMessage, hasEmptyToolResult, hm]
    cases hl : stripBlocksImages l with
    | error e2 =>
      have he : e2 = .typeError := stripBlocksImages_error_typeError l e2 hl
      subst he
      simp [(stripBlocksImages_error_iff l).mp hl]
    | ok l2 =>
      have hrest : l.any ContentBlock.isEmptyToolResultB = false := by
        cases hc : l.any ContentBlock.isEmptyToolResultB
        · rfl
        · exact absurd ((stripBlocksImages_error_iff l).mpr hc) (by simp [hl])
      simp [hrest]

theorem trimHistoryRev_false_ok (l : List Message) :
    ∀ r, trimHistoryRev false l = .ok r → r = l.map condStripUser := by
  induction l with
  | nil =>
    intro r h
    simp only [trimHistoryRev] at h
    injection h with h2
    subst h2
    rfl
  | cons m rest ih =>
    intro r h
    simp only [trimHistoryRev] at h
    by_cases hu : m.role = .user
    · rw [if_pos hu, if_neg (by simp)] at h
      cases hm : trimUserMessage m with
      | error e => rw [hm] at h; cases h
      | ok m2 =>
        rw [hm] at h
        cases hr : trimHistoryRev false rest with
        | error e => rw [hr] at h; cases h
        | ok r2 =>
          rw [hr] at h
          injection h with h2
          subst h2
          rw [List.map_cons, ih r2 hr, trimUserMessage_ok m m2 hm]
          simp [condStripUser, hu]
    · rw [if_neg hu] at h
      cases hr : trimHistoryRev false rest with
      | error e => rw [hr] at h; cases h
      | ok r2 =>
        rw [hr] at h
        injection h with h2
        subst h2
        rw [List.map_cons, ih r2 hr]
        simp [condStripUser, hu]

theorem trimHistoryRev_false_error_typeError (l : List Message) :
    ∀ e, trimHistoryRev false l = .error e → e = .typeError := by
  induction l with
  | nil => intro e h; simp [trimHistoryRev] at h
  | cons m rest ih =>
    intro e h
    simp only [trimHistoryRev] at h
    by_cases hu : m.role = .user
    · rw [if_pos hu, if_neg (by simp)] at h
      cases hm : trimUserMessage m with
      | error e2 =>
        rw [hm] at h
        injection h with h2
        exact h2 ▸ trimUserMessage_error_typeError m e2 hm
      | ok m2 =>
        rw [hm] at h
        cases hr : trimHistoryRev false rest with
        | error e2 =>
          rw [hr] at h
          injection h with h2
          exact h2 ▸ ih e2 hr
        | ok r2 => rw [hr] at h; cases h
    · rw [if_neg hu] at h
      cases hr : trimHistoryRev false rest with
      | error e2 =>
        rw [hr] at h
        injection h with h2
        exact h2 ▸ ih e2 hr
      | ok r2 => rw [hr] at h; cases h

theorem trimHistoryRev_false_error_iff (l : List Message) :
    trimHistoryRev false l = .error .typeError
      ↔ l.any (fun m => (m.role == .user) && hasEmptyToolResult m) = true := by
  induction l with
  | nil => simp [trimHistoryRev]
  | cons m rest ih =>
    simp only [trimHistoryRev, List.any_cons]
    by_cases hu : m.role = .user
    · rw [if_pos hu, if_neg (by simp)]
      cases hm : trimUserMessage m with
      | error e2 =>
        have he : e2 = .typeError := trimUserMessage_error_typeError m e2 hm
        subst he
        simp [hu, (trimUserMessage_error_iff m).mp hm]
      | ok m2 =>
        have hemp : hasEmptyToolResult m = false := by
          cases hc : hasEmptyToolResult m
          · rfl
          · exact absurd ((trimUserMessage_error_iff m).mpr hc) (by simp [hm])
        cases hr : trimHistoryRev false rest with
        | error e2 =>
          have he : e2 = .typeError := trimHistoryRev_false_error_typeError rest e2 hr
          subst he
          simp [hemp, ih.mp hr]
        | ok r2 =>
          have hrest : rest.any (fun m => (m.role == .user) && hasEmptyToolResult m) = false := by
            cases hc : rest.any (fun m => (m.role == .user) && hasEmptyToolResult m)
            · rfl
            · exact absurd (ih.mpr hc) (by simp [hr])
          simp [hemp, hrest]
    · rw [if_neg hu]
      have hb : (m.role == .user) = false := by
        simp [hu]
      cases hr : trimHistoryRev false rest with
      | error e2 =>
        have he : e2 = .typeError := trimHistoryRev_false_error_typeError rest e2 hr
        subst he
        simp [hb, ih.mp hr]
      | ok r2 =>
        have hrest : rest.any (fun m => (m.role == .user) && hasEmptyToolResult m) = false := by
          cases hc : rest.any (fun m => (m.role == .user) && hasEmptyToolResult m)
          · rfl
          · exact absurd (ih.mpr hc) (by simp [hr])
        simp [hb, hrest]

theorem trimHistoryRev_noUser (l : List Message)
    (h : l.all (fun m => !(m.role == .user)) = true) (b : Bool) :
    trimHistoryRev b l = .ok l := by
  induction l with
  | nil => simp [trimHistoryRev]
  | cons m rest ih =>
    rw [List.all_cons, Bool.and_eq_true] at h
    have hu : ¬ m.role = .user := by
      intro hc
      simp [hc] at h
    simp only [trimHistoryRev, if_neg hu]
    rw [ih h.2]

theorem trimHistoryRev_true_split (sufR : List Message) (u : Message) (tail : List Message)
    (hs : sufR.all (fun m => !(m.role == .user)) = true) (hu : u.role = .user) :
    trimHistoryRev true (sufR ++ u :: tail)
      = match trimHistoryRev false tail with
        | .ok r => .ok (sufR ++ u :: r)
        | .error e => .error e := by
  induction sufR with
  | nil =>
    simp only [List.nil_append, trimHistoryRev, if_pos hu, if_pos rfl]
    cases trimHistoryRev false tail <;> simp
  | cons m ms ih =>
    rw [List.all_cons, Bool.and_eq_true] at hs
    have hmu : ¬ m.role = .user := by
      intro hc
      simp [hc] at hs
    simp only [List.cons_append, trimHistoryRev, if_neg hmu, List.append_eq]
    rw [ih hs.2]
    cases trimHistoryRev false tail <;> simp

/-- C4: after a successful history-trimming pass, every user message other
than the single most recent user message has had all image sub-blocks
removed from its array-content tool_result blocks (leaving only the text
sub-blocks), while the most recent user message and every non-user
message are unchanged. -/
theorem c4_history_trim (ms pre suf ms2 : List Message) (u : Message)
    (hsplit : ms = pre ++ u :: suf) (hu : u.role = .user)
    (hsuf : suf.all (fun m => !(m.role == .user)) = true)
    (hok : handleHistoryImageMessages ms = .ok ms2) :
    ms2 = pre.map condStripUser ++ u :: suf := by
  subst hsplit
  simp only [handleHistoryImageMessages] at hok
  rw [List.reverse_append, List.reverse_cons, List.append_assoc, List.singleton_append,
      trimHistoryRev_true_split suf.reverse u pre.reverse
        (by rw [List.all_reverse]; exact hsuf) hu] at hok
  cases hr : trimHistoryRev false pre.reverse with
  | error e => rw [hr] at hok; cases hok
  | ok r =>
    rw [hr] at hok
    injection hok with h2
    subst h2
    rw [trimHistoryRev_false_ok pre.reverse r hr, List.map_reverse]
    rw [List.reverse_append, List.reverse_cons, List.reverse_reverse, List.reverse_reverse,
        List.append_assoc, List.singleton_append]

/-- Witness for C4: a history of an older user message holding an image
tool_result followed by a final user message trims to the image-free older
message with the final message untouched. -/
theorem c4_witness :
    ([strippedImageUserMsg, laterUserMsg] : List Message)
      = [imageUserMsg].map condStripUser ++ laterUserMsg :: [] :=
  c4_history_trim [imageUserMsg, laterUserMsg] [imageUserMsg] []
    [strippedImageUserMsg, laterUserMsg] laterUserMsg rfl rfl rfl rfl

/-- C10: the trimming pass is not total: on a history whose non-exempt
user messages contain a tool_result block with empty array content it
throws a TypeError (the else-branch reads the type field of element 0 of
the empty array), and it completes exactly when no such block exists in a
user message before the most recent user message; a history without user
messages always passes through unchanged. -/
theorem c10_trim_empty_array_throws :
    (∀ (ms pre suf : List Message) (u : Message),
      ms = pre ++ u :: suf → u.role = .user →
      suf.all (fun m => !(m.role == .user)) = true →
      ((handleHistoryImageMessages ms = .error .typeError)
        ↔ pre.any (fun m => (m.role == .user) && hasEmptyToolResult m) = true))
    ∧ (∀ ms : List Message, ms.all (fun m => !(m.role == .user)) = true →
        handleHistoryImageMessages ms = .ok ms) := by
  constructor
  · intro ms pre suf u hsplit hu hsuf
    subst hsplit
    simp only [handleHistoryImageMessages]
    rw [List.reverse_append, List.reverse_cons, List.append_assoc, List.singleton_append,
        trimHistoryRev_true_split suf.reverse u pre.reverse
          (by rw [List.all_reverse]; exact hsuf) hu]
    cases hr : trimHistoryRev false pre.reverse with
    | error e =>
      have he : e = .typeError := trimHistoryRev_false_error_typeError pre.reverse e hr
      subst he
      have hp : pre.reverse.any (fun m => (m.role == .user) && hasEmptyToolResult m) = true :=
        (trimHistoryRev_false_error_iff pre.reverse).mp hr
      rw [List.any_reverse] at hp
      simp [hp]
    | ok r =>
      have hp : pre.reverse.any (fun m => (m.role == .user) && hasEmptyToolResult m) = false := by
        cases hc : pre.reverse.any (fun m => (m.role == .user) && hasEmptyToolResult m)
        · rfl
        · exact absurd ((trimHistoryRev_false_error_iff pre.reverse).mpr hc) (by simp [hr])
      rw [List.any_reverse] at hp
      simp [hp]
  · intro ms h
    simp only [handleHistoryImageMessages]
    rw [trimHistoryRev_noUser ms.reverse (by rw [List.all_reverse]; exact h) true]
    simp [List.reverse_reverse]

/-- Witness for C10: a history whose older user message carries an empty
tool_result content array makes the trimming pass throw. -/
theorem c10_witness :
    handleHistoryImageMessages [emptyResultUserMsg, laterUserMsg] = .error .typeError :=
  (c10_trim_empty_array_throws.1 [emptyResultUserMsg, laterUserMsg] [emptyResultUserMsg] []
    laterUserMsg rfl rfl rfl).mpr rfl

/-! ## Round pairing lemmas -/

theorem runToolUnit_shape (hooks : Hooks) (tool : Tool) (tc : ToolCall) (ctx : Ctx) :
    isToolResultMsg (runToolUnit hooks tool tc ctx).2 = true
    ∧ isToolUseMsg (runToolUnit hooks tool tc ctx).2 = false := by
  simp only [runToolUnit]
  cases hb : applyBeforeHook hooks tool tc { ctx with skip := false } with
  | error e =>
    obtain ⟨c, msg⟩ := e
    simp [errorResultMessage, isToolResultMsg, isToolUseMsg,
          ContentBlock.isToolResultB, ContentBlock.isToolUseB]
  | ok p =>
    obtain ⟨ctx2, input⟩ := p
    cases hor : (ctx2.skip || ctx2.abort) with
    | false =>
      simp only [hor, Bool.false_eq_true, if_false]
      cases he : tool.execute ctx2 input with
      | error e =>
        obtain ⟨c, msg⟩ := e
        simp [errorResultMessage, isToolResultMsg, isToolUseMsg,
              ContentBlock.isToolResultB, ContentBlock.isToolUseB]
      | ok p2 =>
        obtain ⟨ctx3, result⟩ := p2
        cases ha : hooks.afterToolUse with
        | none =>
          simp [ha, successResultMessage, isToolResultMsg, isToolUseMsg,
                ContentBlock.isToolResultB, ContentBlock.isToolUseB]
        | some hk =>
          cases hh : hk tool.name ctx3 result with
          | error e =>
            obtain ⟨c, msg⟩ := e
            simp [ha, hh, errorResultMessage, isToolResultMsg, isToolUseMsg,
                  ContentBlock.isToolResultB, ContentBlock.isToolUseB]
          | ok p3 =>
            obtain ⟨c, mr⟩ := p3
            cases mr <;>
              simp [ha, hh, successResultMessage, isToolResultMsg, isToolUseMsg,
                    ContentBlock.isToolResultB, ContentBlock.isToolUseB]
    | true =>
      simp only [hor, if_true]
      simp [skipResultMessage, isToolResultMsg, isToolUseMsg,
            ContentBlock.isToolResultB, ContentBlock.isToolUseB]

theorem handleEvent_inv (hooks : Hooks) (toolMap : ToolMap) (st : RoundState) (e : StreamEvent)
    (h : st.toolUseMessage.isSome = st.toolResultMessage.isSome
      ∧ (st.toolUseMessage.isSome = true → st.hasToolUse = true)
      ∧ (∀ m, st.toolUseMessage = some m → isToolUseMsg m = true ∧ isToolResultMsg m = false)
      ∧ (∀ m, st.toolResultMessage = some m → isToolResultMsg m = true ∧ isToolUseMsg m = false)) :
    (handleEvent hooks toolMap st e).toolUseMessage.isSome
        = (handleEvent hooks toolMap st e).toolResultMessage.isSome
    ∧ ((handleEvent hooks toolMap st e).toolUseMessage.isSome = true
        → (handleEvent hooks toolMap st e).hasToolUse = true)
    ∧ (∀ m, (handleEvent hooks toolMap st e).toolUseMessage = some m
        → isToolUseMsg m = true ∧ isToolResultMsg m = false)
    ∧ (∀ m, (handleEvent hooks toolMap st e).toolResultMessage = some m
        → isToolResultMsg m = true ∧ isToolUseMsg m = false) := by
  cases e with
  | onContent s =>
    cases hb : strBlank s <;>
      simp only [handleEvent, hb, Bool.false_eq_true, if_false, if_true] <;>
      exact h
  | onToolUse tc =>
    simp only [handleEvent]
    cases hg : toolMapGet toolMap tc.name with
    | none => exact ⟨h.1, fun _ => rfl, h.2.2.1, h.2.2.2⟩
    | some tool =>
      refine ⟨rfl, fun _ => rfl, ?_, ?_⟩
      · intro m hm
        injection hm with hm2
        subst hm2
        exact ⟨rfl, rfl⟩
      · intro m hm
        injection hm with hm2
        subst hm2
        exact runToolUnit_shape hooks tool tc st.ctx
  | onComplete r => exact h
  | onError msg => exact h

theorem processEvents_inv (hooks : Hooks) (toolMap : ToolMap) (events : List StreamEvent) :
    ∀ st : RoundState,
    (st.toolUseMessage.isSome = st.toolResultMessage.isSome
      ∧ (st.toolUseMessage.isSome = true → st.hasToolUse = true)
      ∧ (∀ m, st.toolUseMessage = some m → isToolUseMsg m = true ∧ isToolResultMsg m = false)
      ∧ (∀ m, st.toolResultMessage = some m → isToolResultMsg m = true ∧ isToolUseMsg m = false)) →
    ((processEvents hooks toolMap st events).toolUseMessage.isSome
        = (processEvents hooks toolMap st events).toolResultMessage.isSome
      ∧ ((processEvents hooks toolMap st events).toolUseMessage.isSome = true
          → (processEvents hooks toolMap st events).hasToolUse = true)
      ∧ (∀ m, (processEvents hooks toolMap st events).toolUseMessage = some m
          → isToolUseMsg m = true ∧ isToolResultMsg m = false)
      ∧ (∀ m, (processEvents hooks toolMap st events).toolResultMessage = some m
          → isToolResultMsg m = true ∧ isToolUseMsg m = false)) := by
  induction events with
  | nil => intro st h; exact h
  | cons e rest ih =>
    intro st h
    exact ih (handleEvent hooks toolMap st e) (handleEvent_inv hooks toolMap st e h)

theorem assembleRoundMessages_any (st : RoundState)
    (h3 : ∀ m, st.toolUseMessage = some m → isToolUseMsg m = true ∧ isToolResultMsg m = false)
    (h4 : ∀ m, st.toolResultMessage = some m → isToolResultMsg m = true ∧ isToolUseMsg m = false) :
    (assembleRoundMessages st).any isToolResultMsg = st.toolResultMessage.isSome
    ∧ (assembleRoundMessages st).any isToolUseMsg = st.toolUseMessage.isSome := by
  have htext : ∀ p : Message → Bool,
      p { role := .assistant, content := .str st.assistantTextMessage } = false →
      ((if st.assistantTextMessage = "" then ([] : List Message)
        else [{ role := .assistant, content := .str st.assistantTextMessage }]).any p) = false := by
    intro p hp
    by_cases he : st.assistantTextMessage = "" <;> simp [he, hp]
  constructor
  · rw [assembleRoundMessages, List.any_append, List.any_append]
    rw [htext isToolResultMsg rfl]
    cases hu : st.toolUseMessage with
    | none =>
      cases hr : st.toolResultMessage with
      | none => rfl
      | some m => simp [(h4 m hr).1]
    | some m =>
      cases hr : st.toolResultMessage with
      | none => simp [(h3 m hu).2]
      | some m2 => simp [(h3 m hu).2, (h4 m2 hr).1]
  · rw [assembleRoundMessages, List.any_append, List.any_append]
    rw [htext isToolUseMsg rfl]
    cases hu : st.toolUseMessage with
    | none =>
      cases hr : st.toolResultMessage with
      | none => rfl
      | some m => simp [(h4 m hr).2]
    | some m =>
      cases hr : st.toolResultMessage with
      | none => simp [(h3 m hu).1]
      | some m2 => simp [(h3 m hu).1, (h4 m2 hr).2]

/-- C1: a completed round never splits the tool_use / tool_result pair:
the returned roundMessages contain a user tool_result message exactly when
they contain an assistant tool_use message (messages are assembled only
after the stream has settled and the joined tool unit has delivered its
result message), and hasToolUse is true whenever a tool_use message is
present. -/
theorem c1_round_pairing (hooks : Hooks) (toolMap : ToolMap) (events : List StreamEvent)
    (messages : List Message) (ctx : Ctx) (c2 : Ctx) (m2 : List Message) (res : RoundResult)
    (h : executeSingleRound hooks toolMap events messages ctx = .ok (c2, m2, res)) :
    res.roundMessages.any isToolResultMsg = res.roundMessages.any isToolUseMsg
    ∧ (res.roundMessages.any isToolUseMsg = true → res.hasToolUse = true) := by
  have hinit : (initRoundState ctx).toolUseMessage.isSome
        = (initRoundState ctx).toolResultMessage.isSome
      ∧ ((initRoundState ctx).toolUseMessage.isSome = true
          → (initRoundState ctx).hasToolUse = true)
      ∧ (∀ m, (initRoundState ctx).toolUseMessage = some m
          → isToolUseMsg m = true ∧ isToolResultMsg m = false)
      ∧ (∀ m, (initRoundState ctx).toolResultMessage = some m
          → isToolResultMsg m = true ∧ isToolUseMsg m = false) := by
    refine ⟨rfl, ?_, ?_, ?_⟩
    · intro hc
      simp [initRoundState] at hc
    · intro m hm
      simp [initRoundState] at hm
    · intro m hm
      simp [initRoundState] at hm
  obtain ⟨i1, i2, i3, i4⟩ := processEvents_inv hooks toolMap events (initRoundState ctx) hinit
  obtain ⟨a1, a2⟩ :=
    assembleRoundMessages_any (processEvents hooks toolMap (initRoundState ctx) events) i3 i4
  simp only [executeSingleRound] at h
  cases ht : handleHistoryImageMessages messages with
  | error e => rw [ht] at h; cases h
  | ok trimmed =>
    simp only [ht] at h
    cases ha : (processEvents hooks toolMap (initRoundState ctx) events).ctx.abort with
    | true => simp [ha] at h
    | false =>
      simp only [ha, Bool.false_eq_true, if_false] at h
      have hres : res = { response := (processEvents hooks toolMap (initRoundState ctx) events).response,
                          hasToolUse := (processEvents hooks toolMap (initRoundState ctx) events).hasToolUse,
                          roundMessages := assembleRoundMessages
                            (processEvents hooks toolMap (initRoundState ctx) events) } := by
        injection h with h2
        exact (congrArg (fun t => t.2.2) h2).symm
      subst hres
      constructor
      · show (assembleRoundMessages
            (processEvents hooks toolMap (initRoundState ctx) events)).any isToolResultMsg
          = (assembleRoundMessages
            (processEvents hooks toolMap (initRoundState ctx) events)).any isToolUseMsg
        rw [a1, a2, i1]
      · intro hh
        have hsome : (processEvents hooks toolMap
            (initRoundState ctx) events).toolUseMessage.isSome = true := by
          rw [← a2]
          exact hh
        exact i2 hsome

/-- Witness for C1: the concrete write_context round pairs its tool_use
and tool_result messages and reports hasToolUse. -/
theorem c1_witness :
    wcRoundResult.roundMessages.any isToolResultMsg
        = wcRoundResult.roundMessages.any isToolUseMsg
    ∧ (wcRoundResult.roundMessages.any isToolUseMsg = true
        → wcRoundResult.hasToolUse = true) :=
  c1_round_pairing noHooks wcOnlyMap [.onToolUse wcCall, .onComplete wcResponse] [] emptyCtx
    c1CtxOut [] wcRoundResult rfl

/-! ## Loop counting lemmas -/

theorem runRounds_calls_ge (hooks : Hooks) (toolMap returnOnlyMap : ToolMap)
    (streams : Nat → List StreamEvent) (maxRounds : Nat) :
    ∀ (fuel roundCount calls : Nat) (messages : List Message) (ctx : Ctx),
    calls ≤ (runRounds hooks toolMap returnOnlyMap streams maxRounds
      fuel roundCount calls messages ctx).1 := by
  intro fuel
  induction fuel with
  | zero => intro rc calls msgs ctx; exact Nat.le_refl _
  | succ fuel ih =>
    intro rc calls msgs ctx
    simp only [runRounds]
    split
    · exact Nat.le_add_right calls 1
    · split
      · split
        · exact Nat.le_add_right calls 2
        · exact Nat.le_add_right calls 2
      · split
        · exact Nat.le_add_right calls 1
        · split
          · split
            · exact Nat.le_add_right calls 2
            · exact Nat.le_trans (Nat.le_add_right calls 2) (ih _ _ _ _)
          · exact Nat.le_trans (Nat.le_add_right calls 1) (ih _ _ _ _)

theorem runRounds_calls_succ_ge (hooks : Hooks) (toolMap returnOnlyMap : ToolMap)
    (streams : Nat → List StreamEvent) (maxRounds : Nat)
    (fuel roundCount calls : Nat) (messages : List Message) (ctx : Ctx) :
    calls + 1 ≤ (runRounds hooks toolMap returnOnlyMap streams maxRounds
      (fuel + 1) roundCount calls messages ctx).1 := by
  simp only [runRounds]
  split
  · exact Nat.le_refl _
  · split
    · split
      · exact Nat.le_succ _
      · exact Nat.le_succ _
    · split
      · exact Nat.le_refl _
      · split
        · split
          · exact Nat.le_succ _
          · exact Nat.le_trans (Nat.le_succ _)
              (runRounds_calls_ge hooks toolMap returnOnlyMap streams maxRounds _ _ _ _ _)
        · exact runRounds_calls_ge hooks toolMap returnOnlyMap streams maxRounds _ _ _ _ _

/-- C5: a tool whose execute function throws during a round (or whose
beforeToolUse or afterToolUse hook throws around it) is caught: the tool
unit delivers a user tool_result with is_error true whose text carries the
error message, the round completes normally with the tool_use and
tool_result pair, and the loop goes on to call a further round instead of
failing. -/
theorem c5_tool_throw_recovered (hooks : Hooks) (toolMap : ToolMap)
    (messages trimmed : List Message) (ctx : Ctx) (toolCall : ToolCall) (tool : Tool)
    (response : LLMResponse) (emsg : String)
    (hget : toolMapGet toolMap toolCall.name = some tool)
    (hthrow : unitObservesThrow hooks tool toolCall { ctx with skip := false } emsg)
    (htrim : handleHistoryImageMessages messages = .ok trimmed)
    (habort : (runToolUnit hooks tool toolCall ctx).1.abort = false) :
    (runToolUnit hooks tool toolCall ctx).2 = errorResultMessage toolCall emsg
    ∧ executeSingleRound hooks toolMap [.onToolUse toolCall, .onComplete response] messages ctx
        = .ok ((runToolUnit hooks tool toolCall ctx).1, trimmed,
               { response := some response, hasToolUse := true,
                 roundMessages := [toolUseMessageOf toolCall tool,
                                   errorResultMessage toolCall emsg] })
    ∧ (∀ (returnOnlyMap : ToolMap) (streams : Nat → List StreamEvent)
          (maxRounds fuel roundCount : Nat),
        streams 0 = [.onToolUse toolCall, .onComplete response] →
        responseHasReturnOutput (some response) = false →
        ¬ roundCount + 1 = maxRounds →
        2 ≤ (runRounds hooks toolMap returnOnlyMap streams maxRounds
              (fuel + 2) roundCount 0 messages ctx).1) := by
  have hmsg : (runToolUnit hooks tool toolCall ctx).2 = errorResultMessage toolCall emsg := by
    rcases hthrow with ⟨c, hb⟩ | ⟨ctx2, input, c, h1, h2, h3⟩ |
      ⟨ctx2, input, ctx3, result, hkf, c, h1, h2, h3, h4, h5⟩
    · simp [runToolUnit, hb]
    · simp [runToolUnit, h1, h2, h3]
    · simp [runToolUnit, h1, h2, h3, h4, h5]
  have hround : executeSingleRound hooks toolMap
      [.onToolUse toolCall, .onComplete response] messages ctx
      = .ok ((runToolUnit hooks tool toolCall ctx).1, trimmed,
             { response := some response, hasToolUse := true,
               roundMessages := [toolUseMessageOf toolCall tool,
                                 errorResultMessage toolCall emsg] }) := by
    simp only [executeSingleRound, htrim, processEvents, handleEvent, hget, initRoundState]
    simp [hmsg, habort, assembleRoundMessages]
  refine ⟨hmsg, hround, ?_⟩
  intro returnOnlyMap streams maxRounds fuel roundCount hstr hnoret hnotmax
  simp only [runRounds, hstr, hround]
  simp only [Bool.not_true, Bool.false_and, Bool.false_eq_true, if_false, hnoret,
             if_neg hnotmax]
  exact runRounds_calls_succ_ge hooks toolMap returnOnlyMap streams maxRounds
    fuel (roundCount + 1) 1 _ _

/-- Witness for C5: the boom tool throws, the round recovers it into an
is_error tool_result carrying the message, and the loop runs a second
round. -/
theorem c5_witness :
    (runToolUnit noHooks boomTool boomCall emptyCtx).2 = errorResultMessage boomCall "boom"
    ∧ executeSingleRound noHooks boomOnlyMap [.onToolUse boomCall, .onComplete boomResponse]
        [] emptyCtx
        = .ok ((runToolUnit noHooks boomTool boomCall emptyCtx).1, [],
               { response := some boomResponse, hasToolUse := true,
                 roundMessages := [toolUseMessageOf boomCall boomTool,
                                   errorResultMessage boomCall "boom"] })
    ∧ 2 ≤ (runRounds noHooks boomOnlyMap [("return_output", createReturnTool none)] boomStreams 5
            3 0 0 [] emptyCtx).1 := by
  obtain ⟨h1, h2, h3⟩ := c5_tool_throw_recovered noHooks boomOnlyMap [] [] emptyCtx boomCall
    boomTool boomResponse "boom" rfl
    (Or.inr (Or.inl ⟨emptyCtx, .obj [], emptyCtx, rfl, rfl, rfl⟩)) rfl rfl
  exact ⟨h1, h2, h3 [("return_output", createReturnTool none)] boomStreams 5 1 0 rfl rfl
    (by decide)⟩

theorem runRounds_calls_le (hooks : Hooks) (toolMap returnOnlyMap : ToolMap)
    (streams : Nat → List StreamEvent) (maxRounds : Nat) :
    ∀ (fuel roundCount calls : Nat) (messages : List Message) (ctx : Ctx),
    roundCount + fuel = maxRounds →
    (runRounds hooks toolMap returnOnlyMap streams maxRounds
      fuel roundCount calls messages ctx).1 ≤ calls + fuel + 1 := by
  intro fuel
  induction fuel with
  | zero =>
    intro rc calls msgs ctx hinv
    show calls ≤ calls + 0 + 1
    omega
  | succ fuel ih =>
    intro rc calls msgs ctx hinv
    simp only [runRounds]
    split
    · show calls + 1 ≤ calls + (fuel + 1) + 1
      omega
    · rename_i ctx1 msgs1 res heq
      by_cases hb2 : (!res.hasToolUse && res.response.isSome) = true
      · rw [if_pos hb2]
        split
        · show calls + 2 ≤ calls + (fuel + 1) + 1
          omega
        · show calls + 2 ≤ calls + (fuel + 1) + 1
          omega
      · rw [if_neg hb2]
        by_cases hb3 : responseHasReturnOutput res.response = true
        · rw [if_pos hb3]
          show calls + 1 ≤ calls + (fuel + 1) + 1
          omega
        · rw [if_neg hb3]
          by_cases hmax : rc + 1 = maxRounds
          · rw [if_pos hmax]
            have hf : fuel = 0 := by omega
            subst hf
            split
            · show calls + 2 ≤ calls + (0 + 1) + 1
              omega
            · show calls + 2 ≤ calls + (0 + 1) + 1
              omega
          · rw [if_neg hmax]
            exact Nat.le_trans (ih (rc + 1) (calls + 1) _ _ (by omega)) (by omega)

/-- C3: the number of model rounds executed by ActionImpl.execute (calls
of executeSingleRound, counting the forced final round) never exceeds the
configured budget maxRounds plus one. -/
theorem c3_round_budget (act : ActionImpl) (hooks : Hooks) (contextTools : List Tool)
    (outputSchema : Option Json) (streams : Nat → List StreamEvent) (input : Json) (ctx : Ctx) :
    (executeAction act hooks contextTools outputSchema streams input ctx).1
      ≤ act.maxRounds + 1 := by
  have hle := runRounds_calls_le hooks
    (buildToolMap act.tools contextTools (createReturnTool outputSchema))
    [((createReturnTool outputSchema).name, createReturnTool outputSchema)]
    streams act.maxRounds act.maxRounds 0 0
    [{ role := .system, content := .str formatSystemPrompt },
     { role := .user, content := .str (formatUserPrompt act ctx.vars input) }] ctx
    (by omega)
  simp only [executeAction]
  split
  · rename_i calls e heq
    rw [heq] at hle
    have h2 : calls ≤ 0 + act.maxRounds + 1 := hle
    show calls ≤ act.maxRounds + 1
    omega
  · rename_i calls ctxL msgsL heq
    rw [heq] at hle
    have h2 : calls ≤ 0 + act.maxRounds + 1 := hle
    show calls ≤ act.maxRounds + 1
    omega

/-- C2 (amended): the return_output tool stores its value argument under
the reserved key __action_output, and every completed ActionImpl.execute
call returns the value found under __action_output in the loop-final
variable store, whoever wrote it there last (return_output, write_context,
or a pre-seeded variable), or an empty object when the key is unset; in
either case the key is deleted from the variable store before execute
returns, all other keys being preserved. -/
theorem c2_output_via_reserved_key :
    (∀ (os : Option Json) (ctx : Ctx) (value : Json),
      (createReturnTool os).execute ctx (.obj [("value", value)])
        = .ok ({ ctx with vars := varSet ctx.vars "__action_output" value },
               { image := none, text := none, raw := .obj [("returned", value)] }))
    ∧ (∀ (act : ActionImpl) (hooks : Hooks) (contextTools : List Tool) (os : Option Json)
        (streams : Nat → List StreamEvent) (input : Json) (ctx : Ctx)
        (calls : Nat) (ctxF : Ctx) (out : Json),
      executeAction act hooks contextTools os streams input ctx = (calls, .ok (ctxF, out)) →
      ∃ ctxL msgsL,
        runRounds hooks (buildToolMap act.tools contextTools (createReturnTool os))
            [((createReturnTool os).name, createReturnTool os)]
            streams act.maxRounds act.maxRounds 0 0
            [{ role := .system, content := .str formatSystemPrompt },
             { role := .user, content := .str (formatUserPrompt act ctx.vars input) }] ctx
          = (calls, .ok (ctxL, msgsL))
        ∧ out = (varGet ctxL.vars "__action_output").getD (.obj [])
        ∧ ctxF.vars = varDelete ctxL.vars "__action_output"
        ∧ varGet ctxF.vars "__action_output" = none
        ∧ (∀ k, k ≠ "__action_output" → varGet ctxF.vars k = varGet ctxL.vars k)) := by
  constructor
  · intro os ctx value
    rfl
  · intro act hooks contextTools os streams input ctx calls ctxF out h
    simp only [executeAction] at h
    split at h
    · rename_i calls2 e heq
      rw [Prod.mk.injEq] at h
      exact absurd h.2 (by simp)
    · rename_i calls2 ctxL msgsL heq
      rw [Prod.mk.injEq] at h
      obtain ⟨hcalls, hok⟩ := h
      injection hok with hpair
      rw [Prod.mk.injEq] at hpair
      obtain ⟨hctxF, hout⟩ := hpair
      subst hcalls
      refine ⟨ctxL, msgsL, heq, hout.symm, ?_, ?_, ?_⟩
      · rw [← hctxF]
      · rw [← hctxF]
        exact varGet_varDelete_self _ _
      · intro k hk
        rw [← hctxF]
        exact varGet_varDelete_ne _ _ _ hk

/-- C2 counterexample: the returned value is not always the value stored
by return_output (or an empty object when return_output was never
invoked): in a run whose only tool call is write_context on the reserved
key __action_output and in which return_output is never invoked, execute
returns the hijacked value 7 instead of the empty object. -/
theorem c2_counterexample_hijacked_output :
    executeAction oneRoundAction noHooks [] none hijackStreams (.str "go") emptyCtx
      = (2, .ok (emptyCtx, .num 7))
    ∧ Json.num 7 ≠ Json.obj []
    ∧ (∀ k, (hijackStreams k).all (fun e => !(isReturnOutputCall e)) = true) := by
  refine ⟨rfl, fun h => Json.noConfusion h, fun k => ?_⟩
  cases k with
  | zero => rfl
  | succ n => rfl

/-- Witness for C2: the return tool stores 5 under the reserved key, and
the hijacked run satisfies the amended output characterization. -/
theorem c2_witness :
    ((createReturnTool none).execute emptyCtx (.obj [("value", .num 5)])
        = .ok ({ emptyCtx with vars := varSet emptyCtx.vars "__action_output" (.num 5) },
               { image := none, text := none, raw := .obj [("returned", .num 5)] }))
    ∧ ∃ ctxL msgsL,
        runRounds noHooks (buildToolMap oneRoundAction.tools [] (createReturnTool none))
            [((createReturnTool none).name, createReturnTool none)]
            hijackStreams oneRoundAction.maxRounds oneRoundAction.maxRounds 0 0
            [{ role := .system, content := .str formatSystemPrompt },
             { role := .user,
               content := .str (formatUserPrompt oneRoundAction emptyCtx.vars (.str "go")) }]
            emptyCtx
          = (2, .ok (ctxL, msgsL))
        ∧ Json.num 7 = (varGet ctxL.vars "__action_output").getD (.obj [])
        ∧ emptyCtx.vars = varDelete ctxL.vars "__action_output"
        ∧ varGet emptyCtx.vars "__action_output" = none
        ∧ (∀ k, k ≠ "__action_output" → varGet emptyCtx.vars k = varGet ctxL.vars k) :=
  ⟨c2_output_via_reserved_key.1 none emptyCtx (.num 5),
   c2_output_via_reserved_key.2 oneRoundAction noHooks [] none hijackStreams (.str "go")
     emptyCtx 2 emptyCtx (.num 7) rfl⟩

/-- C6: evaluation of the code at an unknown tool name.  The Error thrown
by onToolUse rejects a promise generateStream never awaits, so the round
is not fatal: it returns normally with hasToolUse set, no tool_use or
tool_result message is produced, and the loop keeps executing rounds (a
two-round budget performs all three calls of its schedule). -/
theorem c6_unknown_tool_not_fatal :
    executeSingleRound noHooks (buildToolMap oneRoundAction.tools [] (createReturnTool none))
        (unknownStreams 0) seedMessages emptyCtx
      = .ok (emptyCtx, seedMessages,
             { response := some unknownResponse, hasToolUse := true, roundMessages := [] })
    ∧ (runRounds noHooks (buildToolMap oneRoundAction.tools [] (createReturnTool none))
        [("return_output", createReturnTool none)] unknownStreams 2 2 0 0 seedMessages emptyCtx)
      = (3, .ok (emptyCtx, seedMessages ++ [maxRoundsInstruction])) :=
  ⟨rfl, rfl⟩
